import Mathlib

/-!
# Verification of `src/main.py` (rust-cleaner)

A shallow embedding of the line-counting program in `src/main.py`:

* `JVal` models the JSON values produced by Python's `json.loads`
  (floats are modelled by rationals: every finite IEEE double is a rational,
  and Python compares `int`/`float`/`bool` values exactly).
* `Line` models one raw input line by the outcome of the per-line stdlib
  calls the program makes on it (`str.strip` emptiness, `json.loads` result).
* `processChunk` embeds `process_chunk` (lines 9-25 of `src/main.py`),
  `chunkedReader` embeds `chunked_reader` (lines 27-35), and
  `mergeChunks` / `runDriver` embed the `__main__` driver loop (lines 37-45).
* A Python `Counter` is modelled as an insertion-ordered association list
  `Tally`; key comparison uses Python equality `pyEq`, under which
  `True == 1` and `1 == 1.0`.
* Exceptions that escape `process_chunk` (only `json.JSONDecodeError` is
  caught) are modelled by `Except PyError`.
-/

/-- A JSON value as materialised by Python's `json.loads`:
`null`/`true`/`false` become `None`/`True`/`False`, integer literals become
`int`, fractional literals become `float` (modelled as an exact rational,
which is faithful because every finite double is a rational and Python
compares numeric values exactly), strings become `str`, arrays become
`list`, objects become `dict` (an insertion-ordered key/value list). -/
inductive JVal where
  | jnull
  | jbool (b : Bool)
  | jint (n : Int)
  | jfloat (q : ℚ)
  | jstr (s : String)
  | jarr (elems : List JVal)
  | jobj (fields : List (String × JVal))

/-- The Python equality/hash class of a hashable value.  Python's `bool`
is a subclass of `int` (`True == 1`, `False == 0`), and `int` and `float`
compare by exact mathematical value, so every numeric value maps to its
rational value; strings map to their content, `None` to a unit.
Unhashable values (`list`/`dict`) have no class (`none`). -/
def pyKey : JVal → Option (ℚ ⊕ String ⊕ Unit)
  | .jnull => some (.inr (.inr ()))
  | .jbool b => some (.inl (if b then 1 else 0))
  | .jint n => some (.inl (n : ℚ))
  | .jfloat q => some (.inl q)
  | .jstr s => some (.inr (.inl s))
  | .jarr _ => none
  | .jobj _ => none

/-- Python equality (`==`) as used on `Counter` keys: two hashable scalars
are equal iff they have the same equality class (so `True == 1`,
`1 == 1.0`, strings by content, `None` only to itself, and values of
unrelated classes are unequal).  Comparisons involving an unhashable value
are unreachable in the program (inserting such a key raises `TypeError`
first); the stand-in returns `false` for them. -/
def pyEq (a b : JVal) : Bool :=
  match pyKey a, pyKey b with
  | some x, some y => decide (x = y)
  | _, _ => false

/-- Whether the value is hashable in Python, i.e. usable as a `Counter`
key: scalars (including `None`) are, `list`/`dict` are not. -/
def hashable : JVal → Bool
  | .jarr _ => false
  | .jobj _ => false
  | _ => true

/-- Whether the value is JSON `null` (Python `None`). -/
def isNull : JVal → Bool
  | .jnull => true
  | _ => false

mutual
/-- Structural identity of JSON values (the spec's notion of "the same
value V": same JSON type and same content), used only to state claims. -/
def jvalBeq : JVal → JVal → Bool
  | .jnull, .jnull => true
  | .jbool a, .jbool b => a == b
  | .jint a, .jint b => decide (a = b)
  | .jfloat a, .jfloat b => decide (a = b)
  | .jstr a, .jstr b => a == b
  | .jarr as, .jarr bs => jvalListBeq as bs
  | .jobj as, .jobj bs => jvalFieldsBeq as bs
  | _, _ => false

/-- Structural identity of JSON arrays, elementwise. -/
def jvalListBeq : List JVal → List JVal → Bool
  | [], [] => true
  | a :: as, b :: bs => jvalBeq a b && jvalListBeq as bs
  | _, _ => false

/-- Structural identity of JSON objects, field by field. -/
def jvalFieldsBeq : List (String × JVal) → List (String × JVal) → Bool
  | [], [] => true
  | (k, v) :: as, (k', v') :: bs => k == k' && jvalBeq v v' && jvalFieldsBeq as bs
  | _, _ => false
end

/-- One raw input line, abstracted by the outcome of the stdlib calls
`process_chunk` makes on it:
* `blank`: `line.strip()` is empty (empty or whitespace-only line);
* `malformed`: the stripped text is nonempty and `json.loads` raises
  `json.JSONDecodeError` (truncated JSON, non-JSON text);
* `parsed v`: `json.loads` returns the value `v`. -/
inductive Line where
  | blank
  | malformed
  | parsed (v : JVal)

/-- An exception escaping `process_chunk` (its `except` clause catches only
`json.JSONDecodeError`): `attributeError` models the `AttributeError` from
`obj.get` when `obj` is not a dict, `typeError` models the unhashable-key
`TypeError` from `c[val] += 1`. -/
inductive PyError where
  | attributeError
  | typeError
  deriving DecidableEq

/-- `dict.get` on the dict built by `json.loads` from an object literal:
the last binding of a duplicated key wins. -/
def objGet (fields : List (String × JVal)) (k : String) : Option JVal :=
  fields.foldl (fun acc p => if p.1 = k then some p.2 else acc) none

/-- The per-line step of `process_chunk` (lines 15-24 of `src/main.py`) up
to the increment: the contribution `obj.get("status")` when the line yields
one, `none` when the line is skipped (`continue` on blank, `pass` on
`JSONDecodeError`, `val is None` when the key is absent or null), and
`AttributeError` when the parsed value is not a dict (uncaught, since only
`JSONDecodeError` is handled). -/
def lineVal (l : Line) : Except PyError (Option JVal) :=
  match l with
  | .blank => .ok none
  | .malformed => .ok none
  | .parsed v =>
    match v with
    | .jobj fields =>
      match objGet fields "status" with
      | none => .ok none
      | some w => if isNull w then .ok none else .ok (some w)
    | _ => .error .attributeError

/-- A Python `collections.Counter`, modelled as an insertion-ordered list
of (key, count) entries; lookups compare keys with Python equality. -/
abbrev Tally := List (JVal × Nat)

/-- `c[k] += 1` on a Counter: bump the first entry whose key is
Python-equal to `k`, or append a new entry `(k, 1)` (Python dicts preserve
insertion order and keep the originally inserted key object). -/
def incr : Tally → JVal → Tally
  | [], k => [(k, 1)]
  | (k', n) :: rest, k =>
    if pyEq k' k then (k', n + 1) :: rest else (k', n) :: incr rest k

/-- `final[k] += m` as performed by `Counter.update` for one entry. -/
def addCount : Tally → JVal → Nat → Tally
  | [], k, m => [(k, m)]
  | (k', n) :: rest, k, m =>
    if pyEq k' k then (k', n + m) :: rest else (k', n) :: addCount rest k m

/-- `final.update(result)` (line 43 of `src/main.py`): add every entry of
the partial tally `u` into `t`. -/
def updateTally (t : Tally) (u : Tally) : Tally :=
  u.foldl (fun acc e => addCount acc e.1 e.2) t

/-- The count a Counter reports for key `v` (sum over the entries whose
key is Python-equal to `v`; in a well-formed Counter at most one is). -/
def tallyCount : Tally → JVal → Nat
  | [], _ => 0
  | (k, n) :: rest, v => (if pyEq k v then n else 0) + tallyCount rest v

/-- The sum of all counts of a tally. -/
def tallyTotal : Tally → Nat
  | [] => 0
  | (_, n) :: rest => n + tallyTotal rest

/-- The loop of `process_chunk` (lines 14-24 of `src/main.py`) with the
Counter accumulated so far; an uncaught exception aborts the chunk. -/
def processChunkAux : List Line → Tally → Except PyError Tally
  | [], c => .ok c
  | l :: rest, c =>
    match lineVal l with
    | .error e => .error e
    | .ok none => processChunkAux rest c
    | .ok (some w) =>
      if hashable w then processChunkAux rest (incr c w)
      else .error .typeError

/-- `process_chunk` (lines 9-25 of `src/main.py`): start from an empty
Counter and fold the per-line step over the chunk. -/
def processChunk (lines : List Line) : Except PyError Tally :=
  processChunkAux lines []

/-- The loop of `chunked_reader` (lines 29-35 of `src/main.py`), with the
currently accumulated chunk. -/
def chunkedReaderAux {α : Type _} (size : Nat) : List α → List α → List (List α)
  | [], chunk => if chunk.isEmpty then [] else [chunk]
  | line :: rest, chunk =>
    let c := chunk ++ [line]
    if size ≤ c.length then c :: chunkedReaderAux size rest []
    else chunkedReaderAux size rest c

/-- `chunked_reader` (lines 27-35 of `src/main.py`): split the line source
into batches of `size` lines, with a final shorter batch of the leftovers. -/
def chunkedReader {α : Type _} (f : List α) (size : Nat) : List (List α) :=
  chunkedReaderAux size f []

/-- The driver's collection loop (lines 42-43 of `src/main.py`) with the
running total `acc`: process each chunk and `Counter.update` the result
into the total; a worker exception is re-raised when its result is
collected, aborting the run. -/
def mergeChunksAux : List (List Line) → Tally → Except PyError Tally
  | [], acc => .ok acc
  | ch :: rest, acc =>
    match processChunk ch with
    | .error e => .error e
    | .ok r => mergeChunksAux rest (updateTally acc r)

/-- Merging the per-chunk tallies, in the order the chunk results are
collected, into an initially empty `final` Counter (lines 38-43). -/
def mergeChunks (chunks : List (List Line)) : Except PyError Tally :=
  mergeChunksAux chunks []

/-- `CHUNK_SIZE` (line 7 of `src/main.py`). -/
def CHUNK_SIZE : Nat := 20000

/-- The whole `__main__` run (lines 37-45) with batch size `size`: chunk
the input lines, count each chunk, merge in submission order.  (The pool
only changes the order in which results arrive; arbitrary completion
orders are quantified over where a claim needs them.) -/
def runDriver (lines : List Line) (size : Nat) : Except PyError Tally :=
  mergeChunks (chunkedReader lines size)

/-- The contribution of one line, if any: the watched value when the line
parses as a JSON object whose `"status"` key is present and non-null. -/
def contribOf (l : Line) : Option JVal :=
  match lineVal l with
  | .ok (some w) => some w
  | _ => none

/-- The number of lines that parse successfully as a JSON object
containing the watched key with non-null value exactly `v` (JSON-value
identity, the spec's notion of "value V"). -/
def linesWith (lines : List Line) (v : JVal) : Nat :=
  lines.countP (fun l =>
    match contribOf l with
    | some w => jvalBeq w v
    | none => false)

/-- The number of lines whose watched-key contribution is Python-equal to
`v` (the key equality actually used by the Counter). -/
def linesWithPy (lines : List Line) (v : JVal) : Nat :=
  lines.countP (fun l =>
    match contribOf l with
    | some w => pyEq w v
    | none => false)

/-- The number `M` of lines that parse successfully as a JSON object
containing the watched key with non-null value. -/
def contribCount (lines : List Line) : Nat :=
  lines.countP (fun l => (contribOf l).isSome)

/-- A line carrying the watched key with value `v`, e.g. `{"status": v}`. -/
def statusLine (v : JVal) : Line :=
  Line.parsed (.jobj [("status", v)])

/-- The six input lines of the spec's scenario:
`{"status":"ok"}`, `{"status":"ok"}`, `not json`, `{"other":1}`,
`{"status":null}`, and a blank line. -/
def scenarioLines : List Line :=
  [ statusLine (.jstr "ok"),
    statusLine (.jstr "ok"),
    Line.malformed,
    Line.parsed (.jobj [("other", .jint 1)]),
    statusLine .jnull,
    Line.blank ]

/-- Keys of a well-formed Counter are pairwise distinct under Python
equality. -/
def keysDistinct (t : Tally) : Prop :=
  List.Pairwise (fun a b : JVal × Nat => pyEq a.1 b.1 = false) t


/-! ## Properties of Python equality on tally keys -/

theorem pyEq_true_iff (a b : JVal) :
    pyEq a b = true ↔ ∃ k, pyKey a = some k ∧ pyKey b = some k := by
  unfold pyEq
  cases ha : pyKey a <;> cases hb : pyKey b <;> simp
  exact eq_comm

theorem pyEq_symm (a b : JVal) : pyEq a b = pyEq b a := by
  unfold pyEq
  cases ha : pyKey a <;> cases hb : pyKey b <;> simp
  exact eq_comm

theorem pyEq_congr_left (a b v : JVal) (h : pyEq a b = true) :
    pyEq a v = pyEq b v := by
  obtain ⟨k, ha, hb⟩ := (pyEq_true_iff a b).mp h
  unfold pyEq
  rw [ha, hb]

theorem pyEq_congr_right (v a b : JVal) (h : pyEq a b = true) :
    pyEq v a = pyEq v b := by
  obtain ⟨k, ha, hb⟩ := (pyEq_true_iff a b).mp h
  unfold pyEq
  rw [ha, hb]

theorem pyEq_refl_of_hashable (v : JVal) (h : hashable v = true) :
    pyEq v v = true := by
  cases v <;> simp_all [pyEq, pyKey, hashable]

/-! ## Counting lemmas for the Counter model -/

theorem tallyCount_incr (t : Tally) (k v : JVal) :
    tallyCount (incr t k) v = tallyCount t v + (if pyEq k v then 1 else 0) := by
  induction t with
  | nil => simp [incr, tallyCount]
  | cons e rest ih =>
    obtain ⟨k', n⟩ := e
    by_cases h : pyEq k' k = true
    · rw [incr, if_pos h]
      have hkv : pyEq k' v = pyEq k v := pyEq_congr_left k' k v h
      simp only [tallyCount, hkv]
      split <;> omega
    · rw [incr, if_neg h]
      simp only [tallyCount, ih]
      omega

theorem tallyCount_addCount (t : Tally) (k : JVal) (m : Nat) (v : JVal) :
    tallyCount (addCount t k m) v = tallyCount t v + (if pyEq k v then m else 0) := by
  induction t with
  | nil => simp [addCount, tallyCount]
  | cons e rest ih =>
    obtain ⟨k', n⟩ := e
    by_cases h : pyEq k' k = true
    · rw [addCount, if_pos h]
      have hkv : pyEq k' v = pyEq k v := pyEq_congr_left k' k v h
      simp only [tallyCount, hkv]
      split <;> omega
    · rw [addCount, if_neg h]
      simp only [tallyCount, ih]
      omega

theorem tallyCount_updateTally (t u : Tally) (v : JVal) :
    tallyCount (updateTally t u) v = tallyCount t v + tallyCount u v := by
  induction u generalizing t with
  | nil => simp [updateTally, tallyCount]
  | cons e rest ih =>
    obtain ⟨k, m⟩ := e
    show tallyCount (updateTally (addCount t k m) rest) v = _
    rw [ih, tallyCount_addCount]
    simp only [tallyCount]
    omega

theorem tallyTotal_incr (t : Tally) (k : JVal) :
    tallyTotal (incr t k) = tallyTotal t + 1 := by
  induction t with
  | nil => simp [incr, tallyTotal]
  | cons e rest ih =>
    obtain ⟨k', n⟩ := e
    by_cases h : pyEq k' k = true
    · rw [incr, if_pos h]; simp only [tallyTotal]; omega
    · rw [incr, if_neg h]; simp only [tallyTotal, ih]; omega

theorem tallyTotal_addCount (t : Tally) (k : JVal) (m : Nat) :
    tallyTotal (addCount t k m) = tallyTotal t + m := by
  induction t with
  | nil => simp [addCount, tallyTotal]
  | cons e rest ih =>
    obtain ⟨k', n⟩ := e
    by_cases h : pyEq k' k = true
    · rw [addCount, if_pos h]; simp only [tallyTotal]; omega
    · rw [addCount, if_neg h]; simp only [tallyTotal, ih]; omega

theorem tallyTotal_updateTally (t u : Tally) :
    tallyTotal (updateTally t u) = tallyTotal t + tallyTotal u := by
  induction u generalizing t with
  | nil => simp [updateTally, tallyTotal]
  | cons e rest ih =>
    obtain ⟨k, m⟩ := e
    show tallyTotal (updateTally (addCount t k m) rest) = _
    rw [ih, tallyTotal_addCount]
    simp only [tallyTotal]
    omega

theorem tallyCount_congr (t : Tally) (v w : JVal) (h : pyEq v w = true) :
    tallyCount t v = tallyCount t w := by
  induction t with
  | nil => rfl
  | cons e rest ih =>
    simp only [tallyCount, ih, pyEq_congr_right e.1 v w h]

/-! ## What `process_chunk` and the merge loop count -/

theorem processChunkAux_ok_count (ls : List Line) (c t : Tally) (v : JVal)
    (h : processChunkAux ls c = .ok t) :
    tallyCount t v = tallyCount c v + linesWithPy ls v := by
  induction ls generalizing c with
  | nil =>
    simp only [processChunkAux, Except.ok.injEq] at h
    subst h
    simp [linesWithPy]
  | cons l rest ih =>
    rw [processChunkAux] at h
    unfold linesWithPy at ih ⊢
    rw [List.countP_cons]
    cases hl : lineVal l with
    | error e => rw [hl] at h; exact absurd h (by simp)
    | ok o =>
      rw [hl] at h
      have hco : contribOf l = o := by rw [contribOf, hl]; cases o <;> rfl
      cases o with
      | none =>
        simp only at h
        rw [ih c h, hco]
        simp
      | some w =>
        simp only at h
        rw [hco]
        by_cases hw : hashable w = true
        · rw [if_pos hw] at h
          rw [ih (incr c w) h, tallyCount_incr]
          simp only
          omega
        · rw [if_neg hw] at h
          exact absurd h (by simp)

theorem processChunkAux_ok_total (ls : List Line) (c t : Tally)
    (h : processChunkAux ls c = .ok t) :
    tallyTotal t = tallyTotal c + contribCount ls := by
  induction ls generalizing c with
  | nil =>
    simp only [processChunkAux, Except.ok.injEq] at h
    subst h
    simp [contribCount]
  | cons l rest ih =>
    rw [processChunkAux] at h
    unfold contribCount at ih ⊢
    rw [List.countP_cons]
    cases hl : lineVal l with
    | error e => rw [hl] at h; exact absurd h (by simp)
    | ok o =>
      rw [hl] at h
      have hco : contribOf l = o := by rw [contribOf, hl]; cases o <;> rfl
      cases o with
      | none =>
        simp only at h
        rw [ih c h, hco]
        simp
      | some w =>
        simp only at h
        rw [hco]
        by_cases hw : hashable w = true
        · rw [if_pos hw] at h
          rw [ih (incr c w) h, tallyTotal_incr]
          simp
          omega
        · rw [if_neg hw] at h
          exact absurd h (by simp)

theorem processChunk_ok_count (ls : List Line) (t : Tally) (v : JVal)
    (h : processChunk ls = .ok t) :
    tallyCount t v = linesWithPy ls v := by
  have := processChunkAux_ok_count ls [] t v h
  simpa [tallyCount] using this

theorem processChunk_ok_total (ls : List Line) (t : Tally)
    (h : processChunk ls = .ok t) :
    tallyTotal t = contribCount ls := by
  have := processChunkAux_ok_total ls [] t h
  simpa [tallyTotal] using this

theorem linesWithPy_append (l₁ l₂ : List Line) (v : JVal) :
    linesWithPy (l₁ ++ l₂) v = linesWithPy l₁ v + linesWithPy l₂ v := by
  simp [linesWithPy, List.countP_append]

theorem contribCount_append (l₁ l₂ : List Line) :
    contribCount (l₁ ++ l₂) = contribCount l₁ + contribCount l₂ := by
  simp [contribCount, List.countP_append]

theorem mergeChunksAux_ok_count (chunks : List (List Line)) (acc t : Tally) (v : JVal)
    (h : mergeChunksAux chunks acc = .ok t) :
    tallyCount t v = tallyCount acc v + linesWithPy chunks.flatten v := by
  induction chunks generalizing acc with
  | nil =>
    simp only [mergeChunksAux, Except.ok.injEq] at h
    subst h
    simp [linesWithPy]
  | cons ch rest ih =>
    rw [mergeChunksAux] at h
    cases hc : processChunk ch with
    | error e => rw [hc] at h; exact absurd h (by simp)
    | ok r =>
      rw [hc] at h
      simp only at h
      rw [ih (updateTally acc r) h, tallyCount_updateTally,
        List.flatten_cons, linesWithPy_append,
        processChunk_ok_count ch r v hc]
      omega

theorem mergeChunksAux_ok_total (chunks : List (List Line)) (acc t : Tally)
    (h : mergeChunksAux chunks acc = .ok t) :
    tallyTotal t = tallyTotal acc + contribCount chunks.flatten := by
  induction chunks generalizing acc with
  | nil =>
    simp only [mergeChunksAux, Except.ok.injEq] at h
    subst h
    simp [contribCount]
  | cons ch rest ih =>
    rw [mergeChunksAux] at h
    cases hc : processChunk ch with
    | error e => rw [hc] at h; exact absurd h (by simp)
    | ok r =>
      rw [hc] at h
      simp only at h
      rw [ih (updateTally acc r) h, tallyTotal_updateTally,
        List.flatten_cons, contribCount_append,
        processChunk_ok_total ch r hc]
      omega

theorem mergeChunks_ok_count (chunks : List (List Line)) (t : Tally) (v : JVal)
    (h : mergeChunks chunks = .ok t) :
    tallyCount t v = linesWithPy chunks.flatten v := by
  have := mergeChunksAux_ok_count chunks [] t v h
  simpa [tallyCount] using this

theorem mergeChunks_ok_total (chunks : List (List Line)) (t : Tally)
    (h : mergeChunks chunks = .ok t) :
    tallyTotal t = contribCount chunks.flatten := by
  have := mergeChunksAux_ok_total chunks [] t h
  simpa [tallyTotal] using this

/-! ## Properties of `chunked_reader` -/

theorem chunkedReaderAux_flatten {α : Type _} (size : Nat) :
    ∀ (f chunk : List α), (chunkedReaderAux size f chunk).flatten = chunk ++ f := by
  intro f
  induction f with
  | nil =>
    intro chunk
    cases chunk <;> simp [chunkedReaderAux]
  | cons l rest ih =>
    intro chunk
    rw [chunkedReaderAux]
    by_cases h : size ≤ (chunk ++ [l]).length
    · rw [if_pos h]
      simp [ih]
    · rw [if_neg h]
      simp [ih]

theorem chunkedReader_flatten {α : Type _} (f : List α) (size : Nat) :
    (chunkedReader f size).flatten = f :=
  chunkedReaderAux_flatten size f []

theorem chunkedReaderAux_mem_length {α : Type _} (size : Nat) (hs : 0 < size) :
    ∀ (f chunk : List α), chunk.length < size →
      ∀ c ∈ chunkedReaderAux size f chunk, 0 < c.length ∧ c.length ≤ size := by
  intro f
  induction f with
  | nil =>
    intro chunk hlt c hc
    cases chunk with
    | nil => simp [chunkedReaderAux] at hc
    | cons a t =>
      simp only [chunkedReaderAux, List.isEmpty_cons, List.mem_singleton] at hc
      rw [if_neg (by simp)] at hc
      simp only [List.mem_singleton] at hc
      subst hc
      exact ⟨by simp, le_of_lt hlt⟩
  | cons l rest ih =>
    intro chunk hlt c hc
    rw [chunkedReaderAux] at hc
    by_cases h : size ≤ (chunk ++ [l]).length
    · rw [if_pos h] at hc
      rcases List.mem_cons.mp hc with rfl | hmem
      · constructor
        · exact Nat.lt_of_lt_of_le hs h
        · simp only [List.length_append, List.length_singleton] at h ⊢
          omega
      · exact ih [] (by simpa using hs) c hmem
    · rw [if_neg h] at hc
      exact ih (chunk ++ [l]) (by omega) c hc

theorem chunkedReaderAux_dropLast_length {α : Type _} (size : Nat) (hs : 0 < size) :
    ∀ (f chunk : List α), chunk.length < size →
      ∀ c ∈ (chunkedReaderAux size f chunk).dropLast, c.length = size := by
  intro f
  induction f with
  | nil =>
    intro chunk hlt c hc
    cases chunk with
    | nil => simp [chunkedReaderAux] at hc
    | cons a t =>
      simp only [chunkedReaderAux, List.isEmpty_cons] at hc
      rw [if_neg (by simp)] at hc
      simp at hc
  | cons l rest ih =>
    intro chunk hlt c hc
    rw [chunkedReaderAux] at hc
    by_cases h : size ≤ (chunk ++ [l]).length
    · rw [if_pos h] at hc
      cases htail : chunkedReaderAux size rest ([] : List α) with
      | nil => rw [htail] at hc; simp at hc
      | cons x xs =>
        rw [htail, List.dropLast_cons₂, List.mem_cons] at hc
        rcases hc with rfl | hmem
        · simp only [List.length_append, List.length_singleton] at h ⊢
          omega
        · rw [← htail] at hmem
          exact ih [] (by simpa using hs) c hmem
    · rw [if_neg h] at hc
      exact ih (chunk ++ [l]) (by omega) c hc

/-! ## Well-formedness of the final Counter: keys pairwise distinct -/

theorem addCount_key_mem (t : Tally) (k : JVal) (m : Nat) :
    ∀ e ∈ addCount t k m, e.1 ∈ t.map Prod.fst ∨ e.1 = k := by
  induction t with
  | nil =>
    intro e he
    simp only [addCount, List.mem_singleton] at he
    subst he
    simp
  | cons p rest ih =>
    obtain ⟨k', n⟩ := p
    intro e he
    by_cases h : pyEq k' k = true
    · rw [addCount, if_pos h] at he
      rcases List.mem_cons.mp he with rfl | hmem
      · simp
      · rcases List.mem_map.mp (List.mem_map_of_mem Prod.fst hmem) with ⟨x, hx, hx'⟩
        left
        simp only [List.map_cons, List.mem_cons]
        right
        exact hx' ▸ List.mem_map_of_mem Prod.fst hx
    · rw [addCount, if_neg h] at he
      rcases List.mem_cons.mp he with rfl | hmem
      · simp
      · rcases ih e hmem with hmem' | rfl
        · left; simp only [List.map_cons, List.mem_cons]; right; exact hmem'
        · right; rfl

theorem addCount_pairwise (t : Tally) (k : JVal) (m : Nat)
    (h : keysDistinct t) : keysDistinct (addCount t k m) := by
  induction t with
  | nil => simp [addCount, keysDistinct]
  | cons p rest ih =>
    obtain ⟨k', n⟩ := p
    rw [keysDistinct, List.pairwise_cons] at h
    obtain ⟨hhead, htail⟩ := h
    by_cases hk : pyEq k' k = true
    · rw [addCount, if_pos hk]
      rw [keysDistinct, List.pairwise_cons]
      exact ⟨hhead, htail⟩
    · rw [addCount, if_neg hk]
      rw [keysDistinct, List.pairwise_cons]
      constructor
      · intro e he
        rcases addCount_key_mem rest k m e he with hmem | heq
        · rcases List.mem_map.mp hmem with ⟨x, hx, hx'⟩
          exact hx' ▸ hhead x hx
        · rw [heq]
          exact Bool.eq_false_iff.mpr (fun hcontra => hk hcontra)
      · exact ih htail

theorem updateTally_pairwise (t u : Tally) (h : keysDistinct t) :
    keysDistinct (updateTally t u) := by
  induction u generalizing t with
  | nil => exact h
  | cons e rest ih =>
    exact ih (addCount t e.1 e.2) (addCount_pairwise t e.1 e.2 h)

theorem mergeChunksAux_ok_pairwise (chunks : List (List Line)) (acc t : Tally)
    (hacc : keysDistinct acc) (h : mergeChunksAux chunks acc = .ok t) :
    keysDistinct t := by
  induction chunks generalizing acc with
  | nil =>
    simp only [mergeChunksAux, Except.ok.injEq] at h
    exact h ▸ hacc
  | cons ch rest ih =>
    rw [mergeChunksAux] at h
    cases hc : processChunk ch with
    | error e => rw [hc] at h; exact absurd h (by simp)
    | ok r =>
      rw [hc] at h
      simp only at h
      exact ih (updateTally acc r) (updateTally_pairwise acc r hacc) h

theorem mergeChunks_ok_pairwise (chunks : List (List Line)) (t : Tally)
    (h : mergeChunks chunks = .ok t) : keysDistinct t :=
  mergeChunksAux_ok_pairwise chunks [] t List.Pairwise.nil h

/-! ## Auxiliary facts used by the claim theorems -/

theorem linesWithPy_flatten_perm (p q : List (List Line)) (hp : p.Perm q) (v : JVal) :
    linesWithPy p.flatten v = linesWithPy q.flatten v := by
  unfold linesWithPy
  rw [List.countP_flatten, List.countP_flatten]
  exact (hp.map (List.countP _)).sum_eq

theorem objGet_statusLine (v : JVal) : objGet [("status", v)] "status" = some v := by
  simp [objGet]

theorem lineVal_statusLine (v : JVal) (hv0 : isNull v = false) :
    lineVal (statusLine v) = .ok (some v) := by
  simp [lineVal, statusLine, objGet_statusLine, hv0]

theorem processChunkAux_skip (l : Line) (h : lineVal l = .ok none) :
    ∀ (pre post : List Line) (c : Tally),
      processChunkAux (pre ++ l :: post) c = processChunkAux (pre ++ post) c := by
  intro pre
  induction pre with
  | nil =>
    intro post c
    simp only [List.nil_append, processChunkAux, h]
  | cons p rest ih =>
    intro post c
    simp only [List.cons_append, processChunkAux]
    cases lineVal p with
    | error e => rfl
    | ok o =>
      cases o with
      | none => exact ih post c
      | some w =>
        by_cases hw : hashable w = true
        · simp only [hw, if_true]
          exact ih post (incr c w)
        · simp only [hw, Bool.false_eq_true, if_false]

/-! ## Claim theorems -/

/-- C1, counterexample to the claim as stated: on the two-line input
`{"status": true}`, `{"status": 1}` the run completes with the single
entry `{True: 2}`; the tally's count for the value `1` (the number) is 2,
yet only one line of the file has the watched key with value `1`, because
Python identifies the keys `True` and `1`. -/
theorem status_count_cross_type_counterexample :
    runDriver [statusLine (.jbool true), statusLine (.jint 1)] 20000
      = .ok [(.jbool true, 2)]
    ∧ tallyCount [((JVal.jbool true), 2)] (.jint 1) = 2
    ∧ linesWith [statusLine (.jbool true), statusLine (.jint 1)] (.jint 1) = 1 :=
  ⟨rfl, rfl, rfl⟩

/-- C1 (amended): for every completed run with positive batch size, the
final tally's count for each value V equals the number of lines in the
file that parse successfully as a JSON object containing the watched key
with non-null value Python-equal to V (Python equality identifies `true`
with `1` and `1` with `1.0`; on values of a single JSON type it is plain
value identity); consequently the sum of all counts equals the number M
of such lines. -/
theorem final_tally_counts_python_equal_lines (lines : List Line) (size : Nat)
    (t : Tally) (_hs : 0 < size) (h : runDriver lines size = .ok t) :
    (∀ v : JVal, tallyCount t v = linesWithPy lines v)
    ∧ tallyTotal t = contribCount lines := by
  have hflat := chunkedReader_flatten lines size
  constructor
  · intro v
    rw [mergeChunks_ok_count _ t v h, hflat]
  · rw [mergeChunks_ok_total _ t h, hflat]

/-- Witness for C1 at the spec's scenario input: the sum of all counts of
the final tally equals the number M = 2 of lines carrying the watched key
with non-null value. -/
theorem final_tally_counts_python_equal_lines_witness :
    tallyTotal [((JVal.jstr "ok"), 2)] = contribCount scenarioLines :=
  (final_tally_counts_python_equal_lines scenarioLines 20000 [(.jstr "ok", 2)]
    (by decide) (by rfl)).2

/-- C2: the per-line step does skip, without raising, an object without
the watched key and an object with JSON null under it — but a line whose
text parses successfully to a non-object (e.g. the line `5` or the line
`[1, 2]`) raises an uncaught `AttributeError` from `obj.get` (the
`except` clause catches only `json.JSONDecodeError`), contradicting the
claim's "produces no contribution and does not raise". -/
theorem decoder_nonobject_line_raises :
    processChunk [Line.parsed (.jint 5)] = .error .attributeError
    ∧ processChunk [Line.parsed (.jarr [.jint 1, .jint 2])] = .error .attributeError
    ∧ processChunk [Line.parsed (.jobj [("other", .jint 1)])] = .ok []
    ∧ processChunk [statusLine .jnull] = .ok [] :=
  ⟨rfl, rfl, rfl, rfl⟩

/-- C3: the final tally is independent of the batch size and of the order
in which per-chunk results are merged (the worker count influences only
that order): for any two positive batch sizes and any two completion
orders (permutations of the respective chunk lists), completed runs
report the same count for every key. -/
theorem final_tally_order_and_batch_invariant
    (lines : List Line) (s₁ s₂ : Nat) (_h₁ : 0 < s₁) (_h₂ : 0 < s₂)
    (p₁ p₂ : List (List Line))
    (hp₁ : p₁.Perm (chunkedReader lines s₁)) (hp₂ : p₂.Perm (chunkedReader lines s₂))
    (t₁ t₂ : Tally)
    (m₁ : mergeChunks p₁ = .ok t₁) (m₂ : mergeChunks p₂ = .ok t₂) (v : JVal) :
    tallyCount t₁ v = tallyCount t₂ v := by
  rw [mergeChunks_ok_count p₁ t₁ v m₁, mergeChunks_ok_count p₂ t₂ v m₂,
    linesWithPy_flatten_perm p₁ _ hp₁ v, linesWithPy_flatten_perm p₂ _ hp₂ v,
    chunkedReader_flatten lines s₁, chunkedReader_flatten lines s₂]

/-- Witness for C3: batch size 1 with the chunk results merged in reverse
completion order versus batch size 2 in submission order, on the two-line
input `{"status":"a"}`, `{"status":"b"}`: the two final Counters list
their entries in different orders but report the same count for `"a"`. -/
theorem final_tally_order_and_batch_invariant_witness :
    tallyCount [((JVal.jstr "b"), 1), ((JVal.jstr "a"), 1)] (.jstr "a")
      = tallyCount [((JVal.jstr "a"), 1), ((JVal.jstr "b"), 1)] (.jstr "a") :=
  final_tally_order_and_batch_invariant
    [statusLine (.jstr "a"), statusLine (.jstr "b")] 1 2 (by decide) (by decide)
    ((chunkedReader [statusLine (.jstr "a"), statusLine (.jstr "b")] 1).reverse)
    (chunkedReader [statusLine (.jstr "a"), statusLine (.jstr "b")] 2)
    (List.reverse_perm _) (List.Perm.refl _)
    [(.jstr "b", 1), (.jstr "a", 1)] [(.jstr "a", 1), (.jstr "b", 1)]
    rfl rfl (.jstr "a")

/-- C4, counterexample to the claim as stated: the records
`{"status": true}` and `{"status": 1}` carry JSON scalars of different
types (boolean vs number), yet they do not produce two distinct tally
entries — the run yields the single entry `{True: 2}` counting both,
because Python's `Counter` identifies the keys `True` and `1`. -/
theorem distinct_types_shared_entry_counterexample :
    processChunk [statusLine (.jbool true), statusLine (.jint 1)]
      = .ok [(.jbool true, 2)]
    ∧ pyEq (.jbool true) (.jint 1) = true :=
  ⟨rfl, rfl⟩

/-- C4 (amended): two records whose watched-key values are non-null
hashable scalars that are NOT Python-equal (in particular any string
versus any number, e.g. `"1"` vs `1`; Python equality merges only
numerically equal values such as `true`/`1` or `1`/`1.0`) produce two
distinct tally entries, each counting only occurrences of its own
value. -/
theorem distinct_python_values_distinct_entries (v w : JVal)
    (hv : hashable v = true) (hw : hashable w = true)
    (hv0 : isNull v = false) (hw0 : isNull w = false)
    (hne : pyEq v w = false) :
    processChunk [statusLine v, statusLine w] = .ok [(v, 1), (w, 1)]
    ∧ tallyCount [(v, 1), (w, 1)] v = 1
    ∧ tallyCount [(v, 1), (w, 1)] w = 1 := by
  have hwv : pyEq w v = false := (pyEq_symm w v).trans hne
  refine ⟨?_, ?_, ?_⟩
  · show processChunkAux [statusLine v, statusLine w] [] = _
    rw [processChunkAux, lineVal_statusLine v hv0]
    simp only [hv, if_true]
    rw [processChunkAux, lineVal_statusLine w hw0]
    simp only [hw, if_true]
    rw [processChunkAux]
    simp [incr, hne]
  · simp only [tallyCount, pyEq_refl_of_hashable v hv, hwv]
    simp
  · simp only [tallyCount, pyEq_refl_of_hashable w hw, hne]
    simp

/-- Witness for C4 (amended) at the spec's own example pair: the string
`"1"` and the number `1` are not Python-equal, so the two records produce
the two distinct entries `{"1": 1, 1: 1}`, each counting only its own
value. -/
theorem distinct_python_values_distinct_entries_witness :
    processChunk [statusLine (.jstr "1"), statusLine (.jint 1)]
      = .ok [(.jstr "1", 1), (.jint 1, 1)]
    ∧ tallyCount [((JVal.jstr "1"), 1), ((JVal.jint 1), 1)] (.jstr "1") = 1
    ∧ tallyCount [((JVal.jstr "1"), 1), ((JVal.jint 1), 1)] (.jint 1) = 1 :=
  distinct_python_values_distinct_entries (.jstr "1") (.jint 1)
    rfl rfl rfl rfl rfl

/-- C5: a blank (empty or whitespace-only) or malformed (truncated JSON,
non-JSON text) line anywhere in a chunk raises nothing, contributes no
tally entry, and leaves the processing of all the other lines untouched:
`process_chunk` on the chunk with the bad line inserted returns exactly
what it returns on the chunk without it. -/
theorem malformed_and_blank_lines_skipped (pre post : List Line) (l : Line)
    (h : l = Line.blank ∨ l = Line.malformed) :
    processChunk (pre ++ l :: post) = processChunk (pre ++ post) := by
  have hl : lineVal l = .ok none := by
    rcases h with rfl | rfl <;> rfl
  exact processChunkAux_skip l hl pre post []

/-- Witness for C5: inserting a malformed line between `{"status":"a"}`
and `{"status":"b"}` leaves the chunk's result unchanged. -/
theorem malformed_and_blank_lines_skipped_witness :
    processChunk [statusLine (.jstr "a"), Line.malformed, statusLine (.jstr "b")]
      = processChunk [statusLine (.jstr "a"), statusLine (.jstr "b")] :=
  malformed_and_blank_lines_skipped [statusLine (.jstr "a")]
    [statusLine (.jstr "b")] Line.malformed (Or.inr rfl)

/-- C6: for every line source and positive batch size, `chunked_reader`
yields chunks whose concatenation is the source in order, every chunk
except possibly the last has length exactly the batch size, every chunk
is nonempty and no longer than the batch size (so a shorter final chunk
holds exactly the leftover lines at exhaustion), and an empty source
yields zero chunks. -/
theorem chunked_reader_contract {α : Type _} (f : List α) (size : Nat)
    (hs : 0 < size) :
    (chunkedReader f size).flatten = f
    ∧ (∀ c ∈ (chunkedReader f size).dropLast, c.length = size)
    ∧ (∀ c ∈ chunkedReader f size, 0 < c.length ∧ c.length ≤ size)
    ∧ chunkedReader ([] : List α) size = [] := by
  refine ⟨chunkedReader_flatten f size, ?_, ?_, rfl⟩
  · exact chunkedReaderAux_dropLast_length size hs f []
      (by simp only [List.length_nil]; exact hs)
  · exact chunkedReaderAux_mem_length size hs f []
      (by simp only [List.length_nil]; exact hs)

/-- Witness for C6: chunking five lines with batch size 2 concatenates
back to the source. -/
theorem chunked_reader_contract_witness :
    (chunkedReader [1, 2, 3, 4, 5] 2).flatten = [1, 2, 3, 4, 5] :=
  (chunked_reader_contract [1, 2, 3, 4, 5] 2 (by decide)).1

/-- C7: on the spec's six-line scenario input — `{"status":"ok"}`,
`{"status":"ok"}`, `not json`, `{"other":1}`, `{"status":null}`, and a
blank line — the program's final tally is exactly `{"ok": 2}`: it maps
`"ok"` to 2 and contains no other entry. -/
theorem scenario_final_tally :
    runDriver scenarioLines CHUNK_SIZE = .ok [(.jstr "ok", 2)] := rfl

/-- C8: an empty input source yields zero chunks and the run terminates
normally (modelled by a non-exceptional `.ok` result, i.e. exit status
zero) with an empty final tally, for every batch size. -/
theorem empty_source_empty_tally (size : Nat) :
    chunkedReader ([] : List Line) size = []
    ∧ runDriver [] size = .ok [] :=
  ⟨rfl, rfl⟩

/-- C9: a line that parses as a JSON object whose watched-key value is a
JSON array or object — e.g. `{"status": [1]}` — makes `process_chunk`
raise an uncaught `TypeError` (unhashable `Counter` key at
`c[val] += 1`; the `except` clause catches only `json.JSONDecodeError`)
instead of contributing to or silently skipping the line. -/
theorem unhashable_status_value_raises :
    processChunk [statusLine (.jarr [.jint 1])] = .error .typeError
    ∧ processChunk [statusLine (.jobj [("a", .jint 1)])] = .error .typeError :=
  ⟨rfl, rfl⟩

/-- C10: in every completed run, records with watched value `true` and
records with watched value `1` (and likewise `1` and `1.0`) are
accumulated under one shared tally entry: the keys are Python-equal
despite their different JSON types, the final tally reports the same
count for all of them, and its entries have pairwise non-equal keys, so a
single entry carries that common count. -/
theorem bool_and_number_share_tally_entry (lines : List Line) (size : Nat)
    (t : Tally) (h : runDriver lines size = .ok t) :
    pyEq (.jbool true) (.jint 1) = true
    ∧ pyEq (.jint 1) (.jfloat 1) = true
    ∧ tallyCount t (.jbool true) = tallyCount t (.jint 1)
    ∧ tallyCount t (.jint 1) = tallyCount t (.jfloat 1)
    ∧ keysDistinct t := by
  refine ⟨rfl, rfl, ?_, ?_, mergeChunks_ok_pairwise _ t h⟩
  · exact tallyCount_congr t _ _ rfl
  · exact tallyCount_congr t _ _ rfl

/-- Witness for C10 on the input `{"status": true}`, `{"status": 1}`,
`{"status": 1.0}`: the completed run yields the single shared entry
`{True: 3}`. -/
theorem bool_and_number_share_tally_entry_witness :
    pyEq (.jbool true) (.jint 1) = true
    ∧ pyEq (.jint 1) (.jfloat 1) = true
    ∧ tallyCount [((JVal.jbool true), 3)] (.jbool true)
        = tallyCount [((JVal.jbool true), 3)] (.jint 1)
    ∧ tallyCount [((JVal.jbool true), 3)] (.jint 1)
        = tallyCount [((JVal.jbool true), 3)] (.jfloat 1)
    ∧ keysDistinct [((JVal.jbool true), 3)] :=
  bool_and_number_share_tally_entry
    [statusLine (.jbool true), statusLine (.jint 1), statusLine (.jfloat 1)]
    20000 [(.jbool true, 3)] rfl
